import Mathlib

set_option maxRecDepth 100000

/-!
Verification of the TOTP second-factor slice of the repository.

The definitions below are a shallow embedding of:
  * `core/auth/totp.go` (`GenerateSecret`, `ValidateCode`, `GenerateQRCode`),
    together with the parts of the `pquerna/otp` library it calls
    (`totp.Validate`, `totp.ValidateCustom`, `hotp.ValidateCustom`,
    `hotp.GenerateCodeCustom`, base32 decoding, HMAC-SHA1), translated at the
    byte level;
  * the native API handlers `setupTOTP`, `enableTOTP`, `disableTOTP`
    (the Go portion of the source file that also holds `TOTPSetupDialog.jsx`),
    with the data store modelled as an explicit association list and with an
    event trace recording every verifier call and store access;
  * the pending-authentication session of spec section 4.3, whose handlers are
    not part of the provided sources and are therefore modelled from the spec.

Machine integers are modelled as `Nat` with explicit `% 2 ^ w` where overflow
matters; strings are handled as `List Char`; fallible operations return
`Option` or `Except`.
-/

namespace NavidromeTOTP

/-! ## Character and list utilities -/

/-- Whitespace test used by the Go `strings.TrimSpace` calls in the embedded
code (ASCII space classes; the inputs at issue are codes, secrets and URLs,
which contain no exotic Unicode spaces). -/
def isSp (c : Char) : Bool :=
  c = ' ' || c = '\t' || c = '\n' || c = '\r'

/-- `strings.TrimSpace` on a character list. -/
def trimSpace (l : List Char) : List Char :=
  ((l.dropWhile isSp).reverse.dropWhile isSp).reverse

/-- `strings.ToUpper` on one ASCII character. -/
def upChar (c : Char) : Char :=
  if 'a' ≤ c && c ≤ 'z' then Char.ofNat (c.toNat - 32) else c

/-- Boolean test that `p` is an initial segment of `l`. -/
def isPre : List Char → List Char → Bool
  | [], _ => true
  | _ :: _, [] => false
  | p :: ps, c :: cs => p = c && isPre ps cs

/-- Split a list at the first occurrence of `sep`: returns the part before it
and, when `sep` occurs, the part after it. -/
def splitFirst (sep : Char) : List Char → List Char × Option (List Char)
  | [] => ([], none)
  | c :: cs =>
    if c = sep then ([], some cs)
    else
      let r := splitFirst sep cs
      (c :: r.1, r.2)

/-! ## Word-level helpers (32-bit and 64-bit arithmetic on `Nat`) -/

/-- `2 ^ 32`. -/
def W32 : Nat := 4294967296

/-- `2 ^ 64`, the modulus of Go `uint64`. -/
def W64 : Nat := 18446744073709551616

/-- Rotate the 32-bit word `x` left by `n` bits. -/
def rotl (n x : Nat) : Nat :=
  ((x <<< n) % W32) ||| (x >>> (32 - n))

/-- Big-endian 8-byte encoding of `n % 2 ^ 64`
(`binary.BigEndian.PutUint64`). -/
def be64 (n : Nat) : List Nat :=
  [n >>> 56 % 256, n >>> 48 % 256, n >>> 40 % 256, n >>> 32 % 256,
   n >>> 24 % 256, n >>> 16 % 256, n >>> 8 % 256, n % 256]

/-- Big-endian 4-byte encoding of a 32-bit word. -/
def be32 (n : Nat) : List Nat :=
  [n >>> 24 % 256, n >>> 16 % 256, n >>> 8 % 256, n % 256]

/-! ## SHA-1 -/

/-- One step of the SHA-1 message schedule: given the words produced so far,
newest first, prepend `rotl 1 (w3 xor w8 xor w14 xor w16)`. -/
def schedStep (acc : List Nat) : List Nat :=
  rotl 1 ((((acc.getD 2 0).xor (acc.getD 7 0)).xor
    ((acc.getD 13 0).xor (acc.getD 15 0)))) :: acc

/-- Convert a 64-byte block to its 16 big-endian 32-bit words. -/
def blockWords : List Nat → List Nat
  | b0 :: b1 :: b2 :: b3 :: rest =>
    (((b0 <<< 24) + (b1 <<< 16)) + ((b2 <<< 8) + b3)) :: blockWords rest
  | _ => []

/-- The 80-word SHA-1 message schedule of one block. -/
def sha1Schedule (block : List Nat) : List Nat :=
  ((List.range 64).foldl (fun acc _ => schedStep acc)
    (blockWords block).reverse).reverse

/-- SHA-1 round function, selected by the round index. -/
def sha1F (i b c d : Nat) : Nat :=
  if i < 20 then (b.land c).lor ((b.xor (W32 - 1)).land d)
  else if i < 40 then (b.xor c).xor d
  else if i < 60 then ((b.land c).lor (b.land d)).lor (c.land d)
  else (b.xor c).xor d

/-- SHA-1 round constant, selected by the round index. -/
def sha1K (i : Nat) : Nat :=
  if i < 20 then 0x5A827999
  else if i < 40 then 0x6ED9EBA1
  else if i < 60 then 0x8F1BBCDC
  else 0xCA62C1D6

/-- One SHA-1 compression round. -/
def sha1Round (st : Nat × Nat × Nat × Nat × Nat) (iw : Nat × Nat) :
    Nat × Nat × Nat × Nat × Nat :=
  let (a, b, c, d, e) := st
  let t := (rotl 5 a + sha1F iw.1 b c d + e + sha1K iw.1 + iw.2) % W32
  (t, a, rotl 30 b, c, d)

/-- Compress one 64-byte block into the running hash state. -/
def sha1Block (h : Nat × Nat × Nat × Nat × Nat) (block : List Nat) :
    Nat × Nat × Nat × Nat × Nat :=
  let (h0, h1, h2, h3, h4) := h
  let ws := sha1Schedule block
  let (a, b, c, d, e) :=
    (List.zip (List.range 80) ws).foldl sha1Round (h0, h1, h2, h3, h4)
  ((h0 + a) % W32, (h1 + b) % W32, (h2 + c) % W32, (h3 + d) % W32,
   (h4 + e) % W32)

/-- Worker for `chunks64`: `acc` holds the current block reversed, `k` the
number of further bytes that still fit in it. -/
def chunksAux : List Nat → List Nat → Nat → List (List Nat)
  | [], acc, _ => if acc.isEmpty then [] else [acc.reverse]
  | c :: cs, acc, k =>
    match k with
    | 0 => acc.reverse :: chunksAux cs [c] 63
    | k + 1 => chunksAux cs (c :: acc) k

/-- Cut a byte list into 64-byte blocks. -/
def chunks64 (l : List Nat) : List (List Nat) :=
  chunksAux l [] 64

/-- SHA-1 padding: append `0x80`, zeros, and the 64-bit bit length. -/
def sha1Pad (msg : List Nat) : List Nat :=
  msg ++ 0x80 :: List.replicate ((64 - (msg.length + 9) % 64) % 64) 0 ++
    be64 (8 * msg.length)

/-- SHA-1 of a byte list, as a 20-byte list. -/
def sha1 (msg : List Nat) : List Nat :=
  let (h0, h1, h2, h3, h4) :=
    (chunks64 (sha1Pad msg)).foldl sha1Block
      (0x67452301, 0xEFCDAB89, 0x98BADCFE, 0x10325476, 0xC3D2E1F0)
  be32 h0 ++ be32 h1 ++ be32 h2 ++ be32 h3 ++ be32 h4

/-! ## HMAC-SHA1 -/

/-- Pad or shorten an HMAC key to the 64-byte SHA-1 block size. -/
def hmacKey (key : List Nat) : List Nat :=
  let k := if key.length > 64 then sha1 key else key
  k ++ List.replicate (64 - k.length) 0

/-- HMAC-SHA1 (`crypto/hmac` with `sha1.New`). -/
def hmacSha1 (key msg : List Nat) : List Nat :=
  let k := hmacKey key
  sha1 ((k.map (fun b => b.xor 0x5c)) ++ sha1 ((k.map (fun b => b.xor 0x36)) ++ msg))

/-! ## Base32 (RFC 4648 standard alphabet, as used by `encoding/base32`) -/

/-- Value of one standard-alphabet base32 character. -/
def b32val (c : Char) : Option Nat :=
  if 'A' ≤ c && c ≤ 'Z' then some (c.toNat - 65)
  else if '2' ≤ c && c ≤ '7' then some (c.toNat - 24) else none

/-- Map a character list to base32 values, failing on a bad character. -/
def b32vals : List Char → Option (List Nat)
  | [] => some []
  | c :: cs =>
    match b32val c, b32vals cs with
    | some v, some vs => some (v :: vs)
    | _, _ => none

/-- Big-endian bytes of `n`, `k` bytes long. -/
def natBytesBE : Nat → Nat → List Nat
  | 0, _ => []
  | k + 1, n => natBytesBE k (n >>> 8) ++ [n % 256]

/-- Accumulate 5-bit base32 values into one big number. -/
def b32fold (vs : List Nat) : Nat :=
  vs.foldl (fun acc v => acc * 32 + v) 0

/-- `base32.StdEncoding.DecodeString`: the input must be a multiple of 8
characters, padding `=` may appear only as a trailing run whose length fits a
valid final quantum, and every other character must belong to the standard
alphabet.  Yields the decoded bytes. -/
def b32decode (s : List Char) : Option (List Nat) :=
  if s.length % 8 ≠ 0 then none
  else
    let content := s.takeWhile (fun c => c ≠ '=')
    if ¬ (s.drop content.length).all (fun c => c = '=') then none
    else if ¬ (content.length % 8 = 0 || content.length % 8 = 2 ||
      content.length % 8 = 4 || content.length % 8 = 5 ||
      content.length % 8 = 7) then none
    else
      match b32vals content with
      | none => none
      | some vs =>
        let bitlen := 5 * vs.length
        let nbytes := bitlen / 8
        some (natBytesBE nbytes ((b32fold vs) >>> (bitlen - 8 * nbytes)))

/-! ## HOTP / TOTP (`pquerna/otp`) -/

/-- One character of a six-digit numeric code. -/
def digitChar (n : Nat) : Char := Char.ofNat (48 + n % 10)

/-- `otp.DigitsSix.Format`: zero-padded six-digit decimal rendering. -/
def code6 (v : Nat) : List Char :=
  [digitChar (v / 100000), digitChar (v / 10000), digitChar (v / 1000),
   digitChar (v / 100), digitChar (v / 10), digitChar v]

/-- The secret normalisation performed by `hotp.GenerateCodeCustom`: trim
whitespace, pad with `=` to a multiple of 8 characters, and upper-case. -/
def normSecret (secret : String) : List Char :=
  let s := trimSpace secret.data
  let s := if s.length % 8 ≠ 0 then s ++ List.replicate (8 - s.length % 8) '=' else s
  s.map upChar

/-- `hotp.GenerateCodeCustom` with the default options used by
`totp.Validate` (SHA-1, six digits): base32-decode the normalised secret,
take HMAC-SHA1 of the big-endian counter, truncate dynamically, and format
six digits.  Fails exactly when the secret is not valid base32. -/
def generateCode (secret : String) (counter : Nat) : Option (List Char) :=
  match b32decode (normSecret secret) with
  | none => none
  | some key =>
    let mac := hmacSha1 key (be64 counter)
    let off := (mac.getD 19 0).land 15
    let value := (((mac.getD off 0).land 127) <<< 24).lor
      ((((mac.getD (off + 1) 0) <<< 16).lor ((mac.getD (off + 2) 0) <<< 8)).lor
        (mac.getD (off + 3) 0))
    some (code6 (value % 1000000))

/-- `hotp.ValidateCustom`: trim the passcode, require six characters, generate
the expected code and compare (the Go code compares with
`subtle.ConstantTimeCompare`, i.e. byte equality). -/
def hotpValidate (passcode : String) (counter : Nat) (secret : String) :
    Except Unit Bool :=
  let p := trimSpace passcode.data
  if p.length ≠ 6 then .error ()
  else
    match generateCode secret counter with
    | none => .error ()
    | some otpstr => .ok (otpstr == p)

/-- The counters tried by `totp.ValidateCustom` with period 30 and skew 1:
the current step `t / 30`, one step after, one step before, as Go `uint64`
values (the step before wraps around when the step is zero). -/
def skewCounters (t : Nat) : List Nat :=
  [t / 30 % W64, (t / 30 + 1) % W64,
   if t / 30 = 0 then W64 - 1 else (t / 30 - 1) % W64]

/-- The counter loop of `totp.ValidateCustom`: any error aborts with a
failure, the first matching counter succeeds. -/
def validateLoop (passcode secret : String) : List Nat → Bool
  | [] => false
  | c :: cs =>
    match hotpValidate passcode c secret with
    | .error _ => false
    | .ok true => true
    | .ok false => validateLoop passcode secret cs

/-- `totp.Validate(passcode, secret)` at Unix time `t` (seconds):
30-second step, skew 1, six digits, SHA-1. -/
def totpValidate (passcode secret : String) (t : Nat) : Bool :=
  validateLoop passcode secret (skewCounters t)

/-- `totpService.ValidateCode` from `core/auth/totp.go`: delegates to
`totp.Validate`; the mismatch warning goes to the observability collaborator
and does not affect the result.  The function takes no mutable state: time is
an explicit argument. -/
def ValidateCode (secret code : String) (t : Nat) : Bool :=
  totpValidate code secret t

/-- The expected code of a secret at a step, as a character list (defined,
i.e. the `some` payload, whenever the secret is valid base32). -/
def genCodeChars (secret : String) (counter : Nat) : List Char :=
  (generateCode secret counter).getD []

/-- A secret that base32-decodes after the `hotp.GenerateCodeCustom`
normalisation, so code generation succeeds at every counter. -/
def secretOk (secret : String) : Bool :=
  (b32decode (normSecret secret)).isSome

/-- A six-character all-digit code. -/
def sixDigits (code : String) : Bool :=
  code.data.length == 6 && code.data.all (fun c => '0' ≤ c && c ≤ '9')

/-! ## Base32 encoding without padding (`totp.Generate` secret rendering) -/

/-- The standard base32 alphabet character of a 5-bit value. -/
def b32chr (v : Nat) : Char :=
  "ABCDEFGHIJKLMNOPQRSTUVWXYZ234567".data.getD (v % 32) 'A'

/-- `base32.StdEncoding.WithPadding(NoPadding).EncodeToString`:
5-byte groups become 8 characters, the final partial group `1`/`2`/`3`/`4`
bytes become `2`/`4`/`5`/`7` characters. -/
def b32enc : List Nat → List Char
  | [] => []
  | [b0] => [b32chr (b0 >>> 3), b32chr ((b0 % 8) <<< 2)]
  | [b0, b1] =>
    [b32chr (b0 >>> 3), b32chr (((b0 % 8) <<< 2) + (b1 >>> 6)),
     b32chr ((b1 >>> 1) % 32), b32chr ((b1 % 2) <<< 4)]
  | [b0, b1, b2] =>
    [b32chr (b0 >>> 3), b32chr (((b0 % 8) <<< 2) + (b1 >>> 6)),
     b32chr ((b1 >>> 1) % 32), b32chr (((b1 % 2) <<< 4) + (b2 >>> 4)),
     b32chr ((b2 % 16) <<< 1)]
  | [b0, b1, b2, b3] =>
    [b32chr (b0 >>> 3), b32chr (((b0 % 8) <<< 2) + (b1 >>> 6)),
     b32chr ((b1 >>> 1) % 32), b32chr (((b1 % 2) <<< 4) + (b2 >>> 4)),
     b32chr (((b2 % 16) <<< 1) + (b3 >>> 7)), b32chr ((b3 >>> 2) % 32),
     b32chr ((b3 % 4) <<< 3)]
  | b0 :: b1 :: b2 :: b3 :: b4 :: rest =>
    [b32chr (b0 >>> 3), b32chr (((b0 % 8) <<< 2) + (b1 >>> 6)),
     b32chr ((b1 >>> 1) % 32), b32chr (((b1 % 2) <<< 4) + (b2 >>> 4)),
     b32chr (((b2 % 16) <<< 1) + (b3 >>> 7)), b32chr ((b3 >>> 2) % 32),
     b32chr (((b3 % 4) <<< 3) + (b4 >>> 5)), b32chr (b4 % 32)] ++ b32enc rest

/-! ## Base64 encoding (`encoding/base64` standard, padded) -/

/-- The standard base64 alphabet character of a 6-bit value. -/
def b64chr (v : Nat) : Char :=
  "ABCDEFGHIJKLMNOPQRSTUVWXYZabcdefghijklmnopqrstuvwxyz0123456789+/".data.getD
    (v % 64) 'A'

/-- `base64.StdEncoding.EncodeToString`. -/
def b64enc : List Nat → List Char
  | [] => []
  | [b0] => [b64chr (b0 >>> 2), b64chr ((b0 % 4) <<< 4), '=', '=']
  | [b0, b1] =>
    [b64chr (b0 >>> 2), b64chr (((b0 % 4) <<< 4) + (b1 >>> 4)),
     b64chr ((b1 % 16) <<< 2), '=']
  | b0 :: b1 :: b2 :: rest =>
    [b64chr (b0 >>> 2), b64chr (((b0 % 4) <<< 4) + (b1 >>> 4)),
     b64chr (((b1 % 16) <<< 2) + (b2 >>> 6)), b64chr (b2 % 64)] ++ b64enc rest

/-! ## Provisioning URL construction and parsing (`pquerna/otp`, `net/url`) -/

/-- Hexadecimal digit character (upper case, as `net/url` emits). -/
def hexChr (n : Nat) : Char := "0123456789ABCDEF".data.getD (n % 16) '0'

/-- ASCII letter or digit. -/
def isAlphaNum (c : Char) : Bool :=
  ('a' ≤ c && c ≤ 'z') || ('A' ≤ c && c ≤ 'Z') || ('0' ≤ c && c ≤ '9')

/-- Percent-escape of one character. -/
def escChar (c : Char) : List Char :=
  ['%', hexChr (c.toNat / 16), hexChr (c.toNat % 16)]

/-- `net/url` query-component escaping (as used by `internal.EncodeQuery`,
which renders a space as `%20`): only unreserved characters pass through. -/
def queryEsc (l : List Char) : List Char :=
  l.flatMap fun c =>
    if isAlphaNum c || c = '-' || c = '_' || c = '.' || c = '~' then [c]
    else escChar c

/-- `net/url` path escaping (`shouldEscape` in `encodePath` mode):
unreserved characters and `$&+,/:;=@` pass through. -/
def pathEsc (l : List Char) : List Char :=
  l.flatMap fun c =>
    if isAlphaNum c || c = '-' || c = '_' || c = '.' || c = '~' ||
        c = '$' || c = '&' || c = '+' || c = ',' || c = '/' || c = ':' ||
        c = ';' || c = '=' || c = '@' then [c]
    else escChar c

/-- The provisioning URL built by `totp.Generate` for issuer `Navidrome`,
an account name and a no-padding base32 secret: scheme `otpauth`, host
`totp`, path `/Navidrome:<account>`, query with keys in sorted order. -/
def provisioningURL (accountName secret : List Char) : List Char :=
  "otpauth://totp/".data ++ pathEsc ("Navidrome:".data ++ accountName) ++
    "?algorithm=SHA1&digits=6&issuer=Navidrome&period=30&secret=".data ++
    queryEsc secret

/-- `totpService.GenerateSecret` from `core/auth/totp.go`, via
`totp.Generate` with issuer `Navidrome`, the account name of the user and a
20-byte random secret; the random bytes are an explicit argument.  Fails when
the account name is empty (`otp.ErrGenerateMissingAccountName`). -/
def generateSecret (userName : String) (randBytes : List Nat) :
    Except Unit (String × String) :=
  if userName.data.isEmpty then .error ()
  else
    let secret := b32enc randBytes
    .ok (String.mk secret, String.mk (provisioningURL userName.data secret))

/-- Control characters rejected by `net/url.Parse`. -/
def hasCtl (l : List Char) : Bool :=
  l.any fun c => c.toNat < 32 || c.toNat = 127

/-- Modelled from the spec: the QR rasterisation and PNG serialisation done
by `otp.Key.Image` and `image/png` (third-party rendering the spec leaves out
of scope beyond: produces a scannable PNG encoding the same URL).  The
embedding treats it as an opaque deterministic byte stream derived from the
URL; no claim depends on the byte values. -/
def qrPngBytes (url : List Char) : List Nat :=
  url.map fun c => c.toNat % 256

/-- `totpService.GenerateQRCode` from `core/auth/totp.go`:
`otp.NewKeyFromURL` trims the string and parses it (`net/url.Parse` fails on
control characters), the QR image of the original string is PNG-encoded,
base64-encoded and wrapped as a data URI. -/
def generateQRCode (url : String) : Except Unit String :=
  if hasCtl (trimSpace url.data) then .error ()
  else
    .ok (String.mk ("data:image/png;base64,".data ++
      b64enc (qrPngBytes (trimSpace url.data))))

/-- Hexadecimal digit value. -/
def hexVal (c : Char) : Option Nat :=
  if '0' ≤ c && c ≤ '9' then some (c.toNat - 48)
  else if 'A' ≤ c && c ≤ 'F' then some (c.toNat - 55)
  else if 'a' ≤ c && c ≤ 'f' then some (c.toNat - 87)
  else none

/-- Percent-decoding in query mode (`+` becomes a space); a malformed escape
is kept literally (the claims only exercise escape-free components). -/
def percDecode : List Char → List Char
  | [] => []
  | '%' :: h1 :: h2 :: rest =>
    match hexVal h1, hexVal h2 with
    | some a, some b => Char.ofNat (16 * a + b) :: percDecode rest
    | _, _ => '%' :: percDecode (h1 :: h2 :: rest)
  | '+' :: rest => ' ' :: percDecode rest
  | c :: rest => c :: percDecode rest

/-- Percent-decoding in path mode (`+` stays itself). -/
def percDecodeP : List Char → List Char
  | [] => []
  | '%' :: h1 :: h2 :: rest =>
    match hexVal h1, hexVal h2 with
    | some a, some b => Char.ofNat (16 * a + b) :: percDecodeP rest
    | _, _ => '%' :: percDecodeP (h1 :: h2 :: rest)
  | c :: rest => c :: percDecodeP rest

/-- The decoded value of a query segment `name=value`, when it has that
shape for the given name. -/
def segValue (name seg : List Char) : Option (List Char) :=
  if isPre (name ++ ['=']) seg then some (percDecode (seg.drop (name.length + 1)))
  else none

/-- Worker for `queryGet`: scan segments separated by `&`, returning the
first value bound to `name` (Go `url.Values.Get` semantics). -/
def queryGetAux (name cur : List Char) : List Char → List Char
  | [] => (segValue name cur.reverse).getD []
  | c :: cs =>
    if c = '&' then
      match segValue name cur.reverse with
      | some v => v
      | none => queryGetAux name [] cs
    else queryGetAux name (c :: cur) cs

/-- First query-parameter value bound to `name`, decoded; empty if absent. -/
def queryGet (name q : List Char) : List Char := queryGetAux name [] q

/-- The raw query of a URL string: everything after the first `?`. -/
def urlQuery (s : List Char) : List Char := ((splitFirst '?' s).2).getD []

/-- The raw path of a URL string of the `scheme://host/path?query` shape
(the shape `otp.NewKeyFromURL` receives). -/
def urlPath (s : List Char) : List Char :=
  let beforeQ := (splitFirst '?' s).1
  match splitFirst ':' beforeQ with
  | (_, some rest) =>
    match rest with
    | '/' :: '/' :: hostpath =>
      match (splitFirst '/' hostpath).2 with
      | some tail => '/' :: tail
      | none => []
    | other => other
  | (a, none) => a

/-- `strings.TrimPrefix(path, "/")`. -/
def dropSlash (p : List Char) : List Char :=
  if isPre ['/'] p then p.drop 1 else p

/-- `otp.Key.AccountName`: the decoded path, with a leading `/` removed, after
the first `:`; the whole remainder when there is no `:`. -/
def keyAccountName (url : String) : String :=
  match splitFirst ':' (dropSlash (percDecodeP (urlPath (trimSpace url.data)))) with
  | (_, some rest) => String.mk rest
  | (a, none) => String.mk a

/-- `otp.Key.Issuer`: the `issuer` query parameter when present and
non-empty, else the path segment before the first `:`. -/
def keyIssuer (url : String) : String :=
  if ¬ (queryGet "issuer".data (urlQuery (trimSpace url.data))).isEmpty then
    String.mk (queryGet "issuer".data (urlQuery (trimSpace url.data)))
  else
    match splitFirst ':' (dropSlash (percDecodeP (urlPath (trimSpace url.data)))) with
    | (a, some _) => String.mk a
    | (_, none) => ""

/-! ## Native API handlers (`setupTOTP`, `enableTOTP`, `disableTOTP`)

The data store is an association list of users; `ds.User(ctx).Get` is a
lookup, `ds.User(ctx).Put` an in-place replacement by id modelled as an
always-succeeding collaborator write of the whole record.  Each handler also
returns the trace of verifier calls and store accesses it performed, in
order. -/

/-- The user record fields involved in this slice
(`{id, userName, totp_secret, totp_enabled}`). -/
structure User where
  id : String
  userName : String
  totpSecret : String
  totpEnabled : Bool
deriving DecidableEq

/-- The authenticated principal taken from the request context. -/
structure LoggedUser where
  id : String
  isAdmin : Bool
deriving DecidableEq

/-- The decoded body of an enable request. -/
structure EnableBody where
  secret : String
  code : String
deriving DecidableEq

/-- The error taxonomy of the handlers (HTTP status and message families). -/
inductive ApiError where
  | notAuthenticated
  | accessDenied
  | invalidBody
  | invalidCode
  | userNotFound
  | internalError
deriving DecidableEq

/-- Collaborator calls a handler can make, in the order they happen. -/
inductive Event where
  | generateSecretEv
  | generateQREv
  | validateCodeEv
  | storeGetEv
  | storePutEv
deriving DecidableEq

/-- Setup response `{secret, qrCode}`. -/
structure SetupResp where
  secret : String
  qrCode : String
deriving DecidableEq

/-- Enable and disable response `{success, totpEnabled}`. -/
structure TotpResp where
  success : Bool
  totpEnabled : Bool
deriving DecidableEq

/-- The persisted user store. -/
abbrev Store := List User

/-- `ds.User(ctx).Get(userID)`. -/
def getUser (userID : String) (store : Store) : Option User :=
  store.find? fun u => u.id == userID

/-- `ds.User(ctx).Put(user)`: replace the record with the same id. -/
def putUser (u : User) (store : Store) : Store :=
  store.map fun x => if x.id == u.id then u else x

/-- The `setupTOTP` handler: authentication, then authorization (self or
admin), then store read, then secret generation and QR rendering.  `lu` is
the request principal (`none` when unauthenticated), `randBytes` the entropy
consumed by `totp.Generate`. -/
def setupTOTP (lu : Option LoggedUser) (userID : String) (randBytes : List Nat)
    (store : Store) : Except ApiError SetupResp × Store × List Event :=
  match lu with
  | none => (.error .notAuthenticated, store, [])
  | some u =>
    if !u.isAdmin && u.id != userID then (.error .accessDenied, store, [])
    else
      match getUser userID store with
      | none => (.error .userNotFound, store, [.storeGetEv])
      | some user =>
        match generateSecret user.userName randBytes with
        | .error _ => (.error .internalError, store, [.storeGetEv, .generateSecretEv])
        | .ok (secret, url) =>
          match generateQRCode url with
          | .error _ =>
            (.error .internalError, store, [.storeGetEv, .generateSecretEv, .generateQREv])
          | .ok qr =>
            (.ok ⟨secret, qr⟩, store, [.storeGetEv, .generateSecretEv, .generateQREv])

/-- The `enableTOTP` handler: body decoding, then authentication, then
authorization, then code validation against the submitted secret, then store
read, then one store write persisting both fields.  `body` is `none` when
the request body does not decode; `t` is the Unix time of the request. -/
def enableTOTP (lu : Option LoggedUser) (userID : String)
    (body : Option EnableBody) (t : Nat) (store : Store) :
    Except ApiError TotpResp × Store × List Event :=
  match body with
  | none => (.error .invalidBody, store, [])
  | some data =>
    match lu with
    | none => (.error .notAuthenticated, store, [])
    | some u =>
      if !u.isAdmin && u.id != userID then (.error .accessDenied, store, [])
      else if !ValidateCode data.secret data.code t then
        (.error .invalidCode, store, [.validateCodeEv])
      else
        match getUser userID store with
        | none => (.error .userNotFound, store, [.validateCodeEv, .storeGetEv])
        | some user =>
          (.ok ⟨true, true⟩,
           putUser { user with totpSecret := data.secret, totpEnabled := true } store,
           [.validateCodeEv, .storeGetEv, .storePutEv])

/-- The `disableTOTP` handler: authentication, then authorization, then store
read, then one store write clearing both fields; no code check. -/
def disableTOTP (lu : Option LoggedUser) (userID : String) (store : Store) :
    Except ApiError TotpResp × Store × List Event :=
  match lu with
  | none => (.error .notAuthenticated, store, [])
  | some u =>
    if !u.isAdmin && u.id != userID then (.error .accessDenied, store, [])
    else
      match getUser userID store with
      | none => (.error .userNotFound, store, [.storeGetEv])
      | some user =>
        (.ok ⟨true, false⟩,
         putUser { user with totpSecret := "", totpEnabled := false } store,
         [.storeGetEv, .storePutEv])

/-! ## Sequences of enrollment operations (for the state-machine invariant) -/

/-- One request against the enrollment endpoints, with all of its inputs. -/
inductive Op where
  | setup (lu : Option LoggedUser) (uid : String) (randBytes : List Nat)
  | enable (lu : Option LoggedUser) (uid : String) (body : Option EnableBody) (t : Nat)
  | disable (lu : Option LoggedUser) (uid : String)

/-- The store after one request. -/
def applyOp (store : Store) : Op → Store
  | .setup lu uid randBytes => (setupTOTP lu uid randBytes store).2.1
  | .enable lu uid body t => (enableTOTP lu uid body t store).2.1
  | .disable lu uid => (disableTOTP lu uid store).2.1

/-- The store after a sequence of requests. -/
def applyOps (store : Store) (ops : List Op) : Store :=
  ops.foldl applyOp store

/-- The spec invariant on Account Second-Factor State:
`enabled == true` implies a non-empty secret, for every account. -/
def totpInvariant (store : Store) : Bool :=
  store.all fun u => !u.totpEnabled || u.totpSecret ≠ ""

/-- An operation whose enable body, if any, carries a non-empty secret. -/
def goodOp : Op → Prop
  | .enable _ _ (some b) _ => b.secret ≠ ""
  | _ => True

instance : DecidablePred goodOp := by
  intro op
  cases op with
  | setup lu uid r => exact .isTrue trivial
  | disable lu uid => exact .isTrue trivial
  | enable lu uid body t =>
    cases body with
    | none => exact .isTrue trivial
    | some b => exact inferInstanceAs (Decidable (b.secret ≠ ""))

/-! ## Pending-Authentication Session

Modelled from the spec (section 4.3): the login-time handlers
(`IssuePendingToken`, `VerifyAndComplete`) are not part of the provided
source files, so the state machine below follows the spec text: a pending
token binds a user id, expires 300 seconds after issuance, is checked
lazily against the wall clock at lookup, and a successful verification
consumes (invalidates) it; code validation delegates to `ValidateCode`
against the stored secret of the bound account. -/

/-- A pending second-factor token. -/
structure Pending where
  token : String
  subjectUserID : String
  issuedAt : Nat
deriving DecidableEq

/-- The login-time state: pending tokens plus the account store. -/
structure AuthState where
  pending : List Pending
  accounts : Store
deriving DecidableEq

/-- Look up a pending token by its bearer value. -/
def findPending (tok : String) (l : List Pending) : Option Pending :=
  l.find? fun p => p.token == tok

/-- Consume a token: it is no longer found. -/
def removePending (tok : String) (l : List Pending) : List Pending :=
  l.filter fun p => p.token ≠ tok

/-- The outcome of `VerifyAndComplete`. -/
inductive VerifyResult where
  | session (userID : String)
  | invalidToken
  | expired
  | invalidCode
deriving DecidableEq

/-- Modelled from the spec: `IssuePendingToken(userID)` at time `now` with
the freshly minted bearer value `tok` (`expiresAt = issuedAt + 5 minutes` is
kept as `issuedAt` plus the constant 300). -/
def issuePendingToken (uid tok : String) (now : Nat) (st : AuthState) : AuthState :=
  { st with pending := ⟨tok, uid, now⟩ :: st.pending }

/-- Modelled from the spec: `VerifyAndComplete(token, code)` at time `now`:
unknown or already-consumed token fails as invalid; a token past
`issuedAt + 300` fails as expired; otherwise the code is validated against
the stored secret of the bound account, a success consumes the token and issues a
session for the bound identity, a failure leaves the token valid. -/
def verifyAndComplete (tok code : String) (now : Nat) (st : AuthState) :
    VerifyResult × AuthState :=
  match findPending tok st.pending with
  | none => (.invalidToken, st)
  | some p =>
    if p.issuedAt + 300 < now then (.expired, st)
    else
      match getUser p.subjectUserID st.accounts with
      | none => (.invalidToken, st)
      | some u =>
        if ValidateCode u.totpSecret code now then
          (.session p.subjectUserID, { st with pending := removePending tok st.pending })
        else (.invalidCode, st)

/-- One login-time operation. -/
inductive AOp where
  | issue (uid tok : String) (now : Nat)
  | verify (tok code : String) (now : Nat)

/-- The login-time state after one operation. -/
def applyAOp (st : AuthState) : AOp → AuthState
  | .issue uid tok now => issuePendingToken uid tok now st
  | .verify tok code now => (verifyAndComplete tok code now st).2

/-- The login-time state after a sequence of operations. -/
def applyAOps (st : AuthState) (ops : List AOp) : AuthState :=
  ops.foldl applyAOp st

/-- Whether an operation mints a pending token with the given bearer value
(unguessability of tokens means a consumed value is never re-minted). -/
def issuesTok : AOp → String → Prop
  | .issue _ tk _, tok => tk = tok
  | .verify _ _ _, _ => False

instance : ∀ op tok, Decidable (issuesTok op tok) := by
  intro op tok
  cases op with
  | issue uid tk now => exact inferInstanceAs (Decidable (tk = tok))
  | verify tk c now => exact .isFalse id

/-! ## Lemmas about code validation -/

theorem dropWhile_nosp {p : Char → Bool} :
    ∀ {l : List Char}, (∀ c ∈ l, p c = false) → l.dropWhile p = l
  | [], _ => rfl
  | c :: cs, h => by
    have hc := h c (List.mem_cons_self c cs)
    simp [List.dropWhile_cons, hc]

theorem trim_of_nosp {l : List Char} (h : ∀ c ∈ l, isSp c = false) :
    trimSpace l = l := by
  unfold trimSpace
  rw [dropWhile_nosp h, dropWhile_nosp fun c hc => h c (List.mem_reverse.mp hc),
    List.reverse_reverse]

theorem digit_not_sp {c : Char} (h : ('0' ≤ c && c ≤ '9') = true) :
    isSp c = false := by
  unfold isSp
  simp only [Bool.or_eq_false_iff, decide_eq_false_iff_not]
  refine ⟨⟨⟨?_, ?_⟩, ?_⟩, ?_⟩ <;> rintro rfl <;> exact absurd h (by decide)

theorem sixDigits_trim {code : String} (h : sixDigits code = true) :
    trimSpace code.data = code.data := by
  unfold sixDigits at h
  simp only [Bool.and_eq_true] at h
  exact trim_of_nosp fun c hc => digit_not_sp (List.all_eq_true.mp h.2 c hc)

theorem sixDigits_len {code : String} (h : sixDigits code = true) :
    code.data.length = 6 := by
  unfold sixDigits at h
  simp only [Bool.and_eq_true, beq_iff_eq] at h
  exact h.1

theorem secretOk_gen {secret : String} (h : secretOk secret = true) (n : Nat) :
    generateCode secret n = some (genCodeChars secret n) := by
  unfold secretOk at h
  cases hd : b32decode (normSecret secret) with
  | none => rw [hd] at h; exact absurd h (by simp)
  | some key => simp [genCodeChars, generateCode, hd]

theorem hotp_ok {secret code : String} (hs : secretOk secret = true)
    (hc : sixDigits code = true) (n : Nat) :
    hotpValidate code n secret = .ok (genCodeChars secret n == code.data) := by
  simp [hotpValidate, sixDigits_trim hc, sixDigits_len hc, secretOk_gen hs n]

theorem loop_any {secret code : String} (hs : secretOk secret = true)
    (hc : sixDigits code = true) (l : List Nat) :
    validateLoop code secret l =
      l.any fun n => genCodeChars secret n == code.data := by
  induction l with
  | nil => rfl
  | cons n ns ih =>
    simp only [validateLoop, hotp_ok hs hc n, List.any_cons]
    cases hb : (genCodeChars secret n == code.data) with
    | true => rfl
    | false => simpa using ih

theorem skew_eq {t : Nat} (h1 : 1 ≤ t / 30) (h2 : t / 30 + 1 < W64) :
    skewCounters t = [t / 30, t / 30 + 1, t / 30 - 1] := by
  unfold skewCounters
  have hne : t / 30 ≠ 0 := by omega
  rw [Nat.mod_eq_of_lt (by omega), Nat.mod_eq_of_lt h2, if_neg hne,
    Nat.mod_eq_of_lt (by omega)]

/-- C1: for a valid (base32-decodable, freshly generated) secret and any
six-digit code, at any time whose 30-second step has a predecessor,
`ValidateCode` returns true exactly when the code equals the RFC 6238
expected code of the current step, of the step immediately before, or of the
step immediately after; every other six-digit value is rejected. -/
theorem c1_validate_window (secret code : String) (t : Nat)
    (hs : secretOk secret = true) (hc : sixDigits code = true)
    (h1 : 1 ≤ t / 30) (h2 : t / 30 + 1 < W64) :
    ValidateCode secret code t = true ↔
      (code.data = genCodeChars secret (t / 30) ∨
       code.data = genCodeChars secret (t / 30 - 1) ∨
       code.data = genCodeChars secret (t / 30 + 1)) := by
  unfold ValidateCode totpValidate
  rw [skew_eq h1 h2, loop_any hs hc]
  simp only [List.any_cons, List.any_nil, Bool.or_false, Bool.or_eq_true,
    beq_iff_eq]
  constructor
  · rintro (h | h | h)
    · exact Or.inl h.symm
    · exact Or.inr (Or.inr h.symm)
    · exact Or.inr (Or.inl h.symm)
  · rintro (h | h | h)
    · exact Or.inl h.symm
    · exact Or.inr (Or.inr h.symm)
    · exact Or.inr (Or.inl h.symm)

theorem c1_validate_window_witness :
    secretOk "GEZDGNBVGY3TQOJQGEZDGNBVGY3TQOJQ" = true ∧
    sixDigits "123456" = true ∧ 1 ≤ 60 / 30 ∧ 60 / 30 + 1 < W64 ∧
    (ValidateCode "GEZDGNBVGY3TQOJQGEZDGNBVGY3TQOJQ" "123456" 60 = true ↔
      ("123456".data = genCodeChars "GEZDGNBVGY3TQOJQGEZDGNBVGY3TQOJQ" (60 / 30) ∨
       "123456".data = genCodeChars "GEZDGNBVGY3TQOJQGEZDGNBVGY3TQOJQ" (60 / 30 - 1) ∨
       "123456".data = genCodeChars "GEZDGNBVGY3TQOJQGEZDGNBVGY3TQOJQ" (60 / 30 + 1))) :=
  ⟨by decide, by decide, by decide, by decide,
    c1_validate_window _ _ 60 (by decide) (by decide) (by decide) (by decide)⟩

/-- C9: `ValidateCode` takes no mutable state (time is an explicit input):
its result depends on the time only through the 30-second step, and a code
equal to the expected code of step `s` validates at every time whose step
lies in the ±1-step window around `s` — replaying it within the window keeps
succeeding. -/
theorem c9_stateless_replay (secret code : String) (s t1 t2 : Nat)
    (hs : secretOk secret = true) (hc : sixDigits code = true)
    (hcode : code.data = genCodeChars secret s)
    (h1 : 1 ≤ s) (h2 : s + 2 < W64) :
    (t1 / 30 = t2 / 30 → ValidateCode secret code t1 = ValidateCode secret code t2) ∧
    ((t1 / 30 = s - 1 ∨ t1 / 30 = s ∨ t1 / 30 = s + 1) →
      ValidateCode secret code t1 = true) := by
  constructor
  · intro h
    unfold ValidateCode totpValidate skewCounters
    rw [h]
  · intro hw
    unfold ValidateCode totpValidate
    rw [loop_any hs hc]
    apply List.any_eq_true.mpr
    refine ⟨s, ?_, by simp [hcode]⟩
    unfold skewCounters
    rcases hw with h | h | h
    · rw [h]
      have e : (s - 1 + 1) % W64 = s := by
        have e1 : s - 1 + 1 = s := by omega
        rw [e1]; exact Nat.mod_eq_of_lt (by omega)
      rw [e]
      exact List.mem_cons_of_mem _ (List.mem_cons_self _ _)
    · rw [h, Nat.mod_eq_of_lt (show s < W64 by omega)]
      exact List.mem_cons_self _ _
    · rw [h, if_neg (show s + 1 ≠ 0 by omega)]
      have e : (s + 1 - 1) % W64 = s := by
        have e1 : s + 1 - 1 = s := by omega
        rw [e1]; exact Nat.mod_eq_of_lt (by omega)
      rw [e]
      exact List.mem_cons_of_mem _ (List.mem_cons_of_mem _ (List.mem_cons_self _ _))

/-! ## Lemmas about the user store -/

theorem getUser_id {userID : String} {store : Store} {u : User}
    (h : getUser userID store = some u) : u.id = userID := by
  have := List.find?_some h
  simpa [beq_iff_eq] using this

theorem getUser_put {userID : String} {store : Store} {u v : User}
    (h : getUser userID store = some u) (hid : v.id = u.id) :
    getUser userID (putUser v store) = some v := by
  have hv : v.id = userID := hid.trans (getUser_id h)
  induction store with
  | nil => simp [getUser] at h
  | cons x xs ih =>
    by_cases hx : x.id = userID
    · have hfx : (if (x.id == v.id) = true then v else x) = v := by
        rw [if_pos]
        rw [beq_iff_eq, hx, hv]
      unfold getUser putUser
      rw [List.map_cons]
      show List.find? _ ((if (x.id == v.id) = true then v else x) :: _) = _
      rw [hfx]
      exact List.find?_cons_of_pos _ (by rw [hv]; exact beq_self_eq_true userID)
    · have hxb : (x.id == userID) = false := by
        rw [beq_eq_false_iff_ne]
        exact hx
      have hrec : getUser userID xs = some u := by
        unfold getUser at h
        rwa [List.find?_cons_of_neg _ (by rw [hxb]; exact Bool.false_ne_true)] at h
      have hfx : (if (x.id == v.id) = true then v else x) = x := by
        rw [if_neg]
        rw [beq_iff_eq, hv]
        exact fun e => hx e
      have hgoal := ih hrec
      unfold getUser putUser at hgoal ⊢
      rw [List.map_cons]
      show List.find? _ ((if (x.id == v.id) = true then v else x) :: _) = _
      rw [hfx, List.find?_cons_of_neg _ (by rw [hxb]; exact Bool.false_ne_true)]
      exact hgoal

theorem mem_putUser {x v : User} {store : Store} (h : x ∈ putUser v store) :
    x = v ∨ x ∈ store := by
  unfold putUser at h
  rcases List.mem_map.mp h with ⟨a, ha, hfa⟩
  by_cases hid : (a.id == v.id) = true
  · rw [if_pos hid] at hfa
    exact Or.inl hfa.symm
  · rw [if_neg hid] at hfa
    exact Or.inr (hfa ▸ ha)

/-! ## Handler theorems -/

/-- C4: when the acting principal exists, is not an administrator and is not
the target account, each of setup, enable (with a well-formed body) and
disable rejects with the access-denied error, leaves the store untouched and
performs no verifier call and no store access at all (empty event trace). -/
theorem c4_forbidden_before_effects (u : LoggedUser) (userID : String)
    (randBytes : List Nat) (store : Store) (b : EnableBody) (t : Nat)
    (hadm : u.isAdmin = false) (hid : u.id ≠ userID) :
    setupTOTP (some u) userID randBytes store = (.error .accessDenied, store, []) ∧
    enableTOTP (some u) userID (some b) t store = (.error .accessDenied, store, []) ∧
    disableTOTP (some u) userID store = (.error .accessDenied, store, []) := by
  have hcond : (!u.isAdmin && u.id != userID) = true := by
    simp [hadm, bne_iff_ne, hid]
  refine ⟨?_, ?_, ?_⟩ <;> simp [setupTOTP, enableTOTP, disableTOTP, hcond]

theorem c4_forbidden_before_effects_witness :
    (⟨"u2", false⟩ : LoggedUser).isAdmin = false ∧
    (⟨"u2", false⟩ : LoggedUser).id ≠ "u1" ∧
    disableTOTP (some ⟨"u2", false⟩) "u1" [⟨"u1", "alice", "", false⟩] =
      (.error .accessDenied, [⟨"u1", "alice", "", false⟩], []) :=
  ⟨rfl, by decide,
    (c4_forbidden_before_effects ⟨"u2", false⟩ "u1" [] [⟨"u1", "alice", "", false⟩]
      ⟨"", ""⟩ 0 rfl (by decide)).2.2⟩

/-- C2: an authorized enable request whose code fails validation against the
submitted secret is rejected with the invalid-code error; the store is
returned unchanged and no store read or write happens (the only event is the
code validation), so the account fields stay exactly as before. -/
theorem c2_invalid_code_no_change (u : LoggedUser) (userID : String)
    (b : EnableBody) (t : Nat) (store : Store)
    (hauth : u.isAdmin = true ∨ u.id = userID)
    (hbad : ValidateCode b.secret b.code t = false) :
    enableTOTP (some u) userID (some b) t store =
      (.error .invalidCode, store, [.validateCodeEv]) := by
  have hcond : (!u.isAdmin && u.id != userID) = false := by
    rcases hauth with h | h <;> simp [h]
  simp [enableTOTP, hcond, hbad]

theorem c2_invalid_code_no_change_witness :
    ValidateCode "GEZDGNBVGY3TQOJQGEZDGNBVGY3TQOJQ" "1" 60 = false ∧
    enableTOTP (some ⟨"u1", false⟩) "u1"
        (some ⟨"GEZDGNBVGY3TQOJQGEZDGNBVGY3TQOJQ", "1"⟩) 60
        [⟨"u1", "alice", "", false⟩] =
      (.error .invalidCode, [⟨"u1", "alice", "", false⟩], [.validateCodeEv]) :=
  ⟨by decide,
    c2_invalid_code_no_change ⟨"u1", false⟩ "u1"
      ⟨"GEZDGNBVGY3TQOJQGEZDGNBVGY3TQOJQ", "1"⟩ 60 [⟨"u1", "alice", "", false⟩]
      (Or.inr rfl) (by decide)⟩

/-- C5: an authorized enable request on an existing account whose code
validates against the submitted secret persists that secret together with
`enabled = true` in one single store write of the whole record (the trace
shows exactly one put) and answers `{success: true, totpEnabled: true}`;
when the code fails validation it answers the invalid-code error instead. -/
theorem c5_enable_persists (u : LoggedUser) (userID : String) (b : EnableBody)
    (t : Nat) (store : Store) (user : User)
    (hauth : u.isAdmin = true ∨ u.id = userID)
    (hget : getUser userID store = some user) :
    (ValidateCode b.secret b.code t = true →
      enableTOTP (some u) userID (some b) t store =
        (.ok ⟨true, true⟩,
         putUser { user with totpSecret := b.secret, totpEnabled := true } store,
         [.validateCodeEv, .storeGetEv, .storePutEv])) ∧
    (ValidateCode b.secret b.code t = false →
      enableTOTP (some u) userID (some b) t store =
        (.error .invalidCode, store, [.validateCodeEv])) := by
  have hcond : (!u.isAdmin && u.id != userID) = false := by
    rcases hauth with h | h <;> simp [h]
  constructor
  · intro hv
    simp [enableTOTP, hcond, hv, hget]
  · intro hv
    simp [enableTOTP, hcond, hv]

theorem c5_enable_persists_witness :
    getUser "u1" [⟨"u1", "alice", "", false⟩] = some ⟨"u1", "alice", "", false⟩ ∧
    ValidateCode "GEZDGNBVGY3TQOJQGEZDGNBVGY3TQOJQ" "1" 60 = false ∧
    enableTOTP (some ⟨"u1", true⟩) "u1"
        (some ⟨"GEZDGNBVGY3TQOJQGEZDGNBVGY3TQOJQ", "1"⟩) 60
        [⟨"u1", "alice", "", false⟩] =
      (.error .invalidCode, [⟨"u1", "alice", "", false⟩], [.validateCodeEv]) :=
  ⟨by decide, by decide,
    (c5_enable_persists ⟨"u1", true⟩ "u1"
      ⟨"GEZDGNBVGY3TQOJQGEZDGNBVGY3TQOJQ", "1"⟩ 60 [⟨"u1", "alice", "", false⟩]
      ⟨"u1", "alice", "", false⟩ (Or.inl rfl) (by decide)).2 (by decide)⟩

/-- C6: an authorized disable request on an existing account always succeeds
with `{success: true, totpEnabled: false}`, clears both the secret and the
enabled flag in one single store write of the whole record, and performs no
code validation (the trace is exactly one get and one put). -/
theorem c6_disable_always (u : LoggedUser) (userID : String) (store : Store)
    (user : User) (hauth : u.isAdmin = true ∨ u.id = userID)
    (hget : getUser userID store = some user) :
    disableTOTP (some u) userID store =
      (.ok ⟨true, false⟩,
       putUser { user with totpSecret := "", totpEnabled := false } store,
       [.storeGetEv, .storePutEv]) := by
  have hcond : (!u.isAdmin && u.id != userID) = false := by
    rcases hauth with h | h <;> simp [h]
  simp [disableTOTP, hcond, hget]

theorem c6_disable_always_witness :
    getUser "u1" [⟨"u1", "alice", "SECRETX2", true⟩] =
      some ⟨"u1", "alice", "SECRETX2", true⟩ ∧
    disableTOTP (some ⟨"u1", false⟩) "u1" [⟨"u1", "alice", "SECRETX2", true⟩] =
      (.ok ⟨true, false⟩, [⟨"u1", "alice", "", false⟩], [.storeGetEv, .storePutEv]) := by
  refine ⟨by decide, ?_⟩
  have h := c6_disable_always ⟨"u1", false⟩ "u1" [⟨"u1", "alice", "SECRETX2", true⟩]
    ⟨"u1", "alice", "SECRETX2", true⟩ (Or.inr rfl) (by decide)
  simpa [putUser] using h

/-- C10: an authorized disable request on an account that is already
unenrolled (empty secret, disabled flag) still succeeds with
`{success: true, totpEnabled: false}` and leaves the account record exactly
as it was: disable is idempotent at the public interface. -/
theorem c10_disable_idempotent (u : LoggedUser) (userID : String)
    (store : Store) (user : User)
    (hauth : u.isAdmin = true ∨ u.id = userID)
    (hget : getUser userID store = some user)
    (hsec : user.totpSecret = "") (hen : user.totpEnabled = false) :
    (disableTOTP (some u) userID store).1 = .ok ⟨true, false⟩ ∧
    getUser userID (disableTOTP (some u) userID store).2.1 =
      getUser userID store := by
  have hcond : (!u.isAdmin && u.id != userID) = false := by
    rcases hauth with h | h <;> simp [h]
  have heq : ({ user with totpSecret := "", totpEnabled := false } : User) = user := by
    cases user
    simp only at hsec hen
    rw [hsec, hen]
  constructor
  · simp [disableTOTP, hcond, hget]
  · have hst : (disableTOTP (some u) userID store).2.1 = putUser user store := by
      simp [disableTOTP, hcond, hget, heq]
    rw [hst, getUser_put hget rfl, hget]

theorem c10_disable_idempotent_witness :
    getUser "u1" [⟨"u1", "alice", "", false⟩] = some ⟨"u1", "alice", "", false⟩ ∧
    (disableTOTP (some ⟨"u1", false⟩) "u1" [⟨"u1", "alice", "", false⟩]).1 =
      .ok ⟨true, false⟩ ∧
    getUser "u1" (disableTOTP (some ⟨"u1", false⟩) "u1"
        [⟨"u1", "alice", "", false⟩]).2.1 =
      getUser "u1" [⟨"u1", "alice", "", false⟩] :=
  ⟨by decide,
    (c10_disable_idempotent ⟨"u1", false⟩ "u1" [⟨"u1", "alice", "", false⟩]
      ⟨"u1", "alice", "", false⟩ (Or.inr rfl) (by decide) rfl rfl).1,
    (c10_disable_idempotent ⟨"u1", false⟩ "u1" [⟨"u1", "alice", "", false⟩]
      ⟨"u1", "alice", "", false⟩ (Or.inr rfl) (by decide) rfl rfl).2⟩

theorem c9_stateless_replay_witness :
    "359152".data = genCodeChars "GEZDGNBVGY3TQOJQGEZDGNBVGY3TQOJQ" 2 ∧
    ((60 / 30 = 75 / 30 →
      ValidateCode "GEZDGNBVGY3TQOJQGEZDGNBVGY3TQOJQ" "359152" 60 =
        ValidateCode "GEZDGNBVGY3TQOJQGEZDGNBVGY3TQOJQ" "359152" 75) ∧
     ((60 / 30 = 2 - 1 ∨ 60 / 30 = 2 ∨ 60 / 30 = 2 + 1) →
      ValidateCode "GEZDGNBVGY3TQOJQGEZDGNBVGY3TQOJQ" "359152" 60 = true)) :=
  ⟨by decide,
    c9_stateless_replay _ "359152" 2 60 75 (by decide) (by decide) (by decide)
      (by decide) (by decide)⟩

/-! ## The enrollment state-machine invariant (C3) -/

theorem setup_store (lu : Option LoggedUser) (uid : String) (r : List Nat)
    (store : Store) : (setupTOTP lu uid r store).2.1 = store := by
  unfold setupTOTP
  cases lu with
  | none => rfl
  | some u =>
    dsimp only
    split
    · rfl
    · split
      · rfl
      · split
        · rfl
        · split <;> rfl

theorem inv_applyOp {store : Store} {op : Op} (hg : goodOp op)
    (hi : totpInvariant store = true) : totpInvariant (applyOp store op) = true := by
  cases op with
  | setup lu uid r =>
    show totpInvariant (setupTOTP lu uid r store).2.1 = true
    rw [setup_store]
    exact hi
  | enable lu uid body t =>
    show totpInvariant (enableTOTP lu uid body t store).2.1 = true
    unfold enableTOTP
    cases body with
    | none => exact hi
    | some data =>
      cases lu with
      | none => exact hi
      | some u =>
        dsimp only
        split
        · exact hi
        · split
          · exact hi
          · split
            · exact hi
            · rename_i user hget
              have hsec : data.secret ≠ "" := hg
              apply List.all_eq_true.mpr
              intro x hx
              rcases mem_putUser hx with rfl | hxs
              · simp [hsec]
              · exact List.all_eq_true.mp hi x hxs
  | disable lu uid =>
    show totpInvariant (disableTOTP lu uid store).2.1 = true
    unfold disableTOTP
    cases lu with
    | none => exact hi
    | some u =>
      dsimp only
      split
      · exact hi
      · split
        · exact hi
        · rename_i user hget
          apply List.all_eq_true.mpr
          intro x hx
          rcases mem_putUser hx with rfl | hxs
          · simp
          · exact List.all_eq_true.mp hi x hxs

/-- C3 (amended): starting from any store satisfying the invariant (in
particular the blank state), after any sequence of setup, enable and disable
requests in which every enable body carries a non-empty secret, the invariant
`enabled == true` implies a non-empty persisted secret still holds for every
account.  The restriction to non-empty submitted secrets is forced by
`c3_empty_secret_counterexample`: the handler persists the submitted secret
without checking it. -/
theorem c3_secret_nonempty_invariant (ops : List Op) (store : Store)
    (hg : ∀ op ∈ ops, goodOp op) (hi : totpInvariant store = true) :
    totpInvariant (applyOps store ops) = true := by
  induction ops generalizing store with
  | nil => exact hi
  | cons op rest ih =>
    exact ih (applyOp store op) (fun o ho => hg o (List.mem_cons_of_mem _ ho))
      (inv_applyOp (hg op (List.mem_cons_self _ _)) hi)

theorem c3_secret_nonempty_invariant_witness :
    (∀ op ∈ [Op.disable (some ⟨"u1", false⟩) "u1"], goodOp op) ∧
    totpInvariant [⟨"u1", "alice", "", false⟩] = true ∧
    totpInvariant (applyOps [⟨"u1", "alice", "", false⟩]
      [Op.disable (some ⟨"u1", false⟩) "u1"]) = true :=
  ⟨by decide, by decide,
    c3_secret_nonempty_invariant [Op.disable (some ⟨"u1", false⟩) "u1"]
      [⟨"u1", "alice", "", false⟩] (by decide) (by decide)⟩

/-- C3 (counterexample): from the blank state, one enable request by the
account owner submitting the empty secret together with the correct RFC 6238
code of the empty key (812658 at step 1, i.e. at Unix time 30) passes
validation and is persisted, leaving the account with `enabled = true` and
an empty secret — the claimed invariant fails. -/
theorem c3_empty_secret_counterexample :
    totpInvariant (applyOps [⟨"u1", "alice", "", false⟩]
      [Op.enable (some ⟨"u1", false⟩) "u1" (some ⟨"", "812658"⟩) 30]) = false := by
  decide

/-! ## Pending-token lemmas (C7) -/

theorem findPending_remove_self (tok : String) (l : List Pending) :
    findPending tok (removePending tok l) = none := by
  induction l with
  | nil => rfl
  | cons p ps ih =>
    unfold removePending at ih ⊢
    rw [List.filter_cons]
    by_cases hp : p.token = tok
    · rw [if_neg (by simp [hp])]
      exact ih
    · rw [if_pos (by simp [hp])]
      unfold findPending
      rw [List.find?_cons_of_neg _ (by simp [hp])]
      exact ih

theorem findPending_remove_ne {tok tk : String} (h : tok ≠ tk) (l : List Pending) :
    findPending tok (removePending tk l) = findPending tok l := by
  induction l with
  | nil => rfl
  | cons p ps ih =>
    unfold removePending at ih ⊢
    rw [List.filter_cons]
    by_cases hp : p.token = tk
    · rw [if_neg (by simp [hp])]
      rw [ih]
      unfold findPending
      rw [List.find?_cons_of_neg _ (by simp [hp, Ne.symm h])]
    · rw [if_pos (by simp [hp])]
      unfold findPending at ih ⊢
      simp only [List.find?]
      cases ht : (p.token == tok) with
      | true => rfl
      | false => exact ih

theorem verify_consumes {tok code : String} {now : Nat} {st st2 : AuthState}
    {uid : String} (h : verifyAndComplete tok code now st = (.session uid, st2)) :
    findPending tok st2.pending = none := by
  unfold verifyAndComplete at h
  cases hf : findPending tok st.pending with
  | none => rw [hf] at h; exact absurd h (by simp)
  | some p =>
    rw [hf] at h
    dsimp only at h
    by_cases he : p.issuedAt + 300 < now
    · rw [if_pos he] at h; exact absurd h (by simp)
    · rw [if_neg he] at h
      cases hu : getUser p.subjectUserID st.accounts with
      | none => rw [hu] at h; exact absurd h (by simp)
      | some u =>
        rw [hu] at h
        dsimp only at h
        by_cases hvc : ValidateCode u.totpSecret code now = true
        · rw [if_pos hvc] at h
          have hst : st2 = { st with pending := removePending tok st.pending } :=
            (congrArg Prod.snd h).symm
          rw [hst]
          exact findPending_remove_self tok st.pending
        · rw [if_neg hvc] at h; exact absurd h (by simp)

theorem step_preserve {tok : String} {st : AuthState} {op : AOp}
    (h : ¬ issuesTok op tok) :
    findPending tok (applyAOp st op).pending = findPending tok st.pending ∨
    findPending tok (applyAOp st op).pending = none := by
  cases op with
  | issue uid tk now =>
    have htk : tk ≠ tok := h
    left
    show findPending tok (issuePendingToken uid tk now st).pending = _
    unfold issuePendingToken findPending
    exact List.find?_cons_of_neg _ (by simp [htk])
  | verify tk c now =>
    show findPending tok (verifyAndComplete tk c now st).2.pending = _ ∨
      findPending tok (verifyAndComplete tk c now st).2.pending = none
    unfold verifyAndComplete
    cases hf : findPending tk st.pending with
    | none => left; rfl
    | some p =>
      dsimp only
      by_cases he : p.issuedAt + 300 < now
      · rw [if_pos he]; left; rfl
      · rw [if_neg he]
        cases hu : getUser p.subjectUserID st.accounts with
        | none => left; rfl
        | some u =>
          dsimp only
          by_cases hvc : ValidateCode u.totpSecret c now = true
          · rw [if_pos hvc]
            by_cases htt : tok = tk
            · right
              dsimp only
              rw [htt]
              exact findPending_remove_self tk st.pending
            · left
              dsimp only
              exact findPending_remove_ne htt st.pending
          · rw [if_neg hvc]; left; rfl

theorem seq_preserve {tok : String} (ops : List AOp) (st : AuthState)
    (h : ∀ op ∈ ops, ¬ issuesTok op tok) :
    findPending tok (applyAOps st ops).pending = findPending tok st.pending ∨
    findPending tok (applyAOps st ops).pending = none := by
  induction ops generalizing st with
  | nil => left; rfl
  | cons op rest ih =>
    have hstep := @step_preserve tok st op (h op (List.mem_cons_self _ _))
    have hrest := ih (applyAOp st op) fun o ho => h o (List.mem_cons_of_mem _ ho)
    rcases hrest with h1 | h1
    · rcases hstep with h2 | h2
      · left; exact h1.trans h2
      · right; exact h1.trans h2
    · right; exact h1

theorem verify_absent {tok code : String} {now : Nat} {st : AuthState}
    (h : findPending tok st.pending = none) :
    verifyAndComplete tok code now st = (.invalidToken, st) := by
  unfold verifyAndComplete
  rw [h]

theorem verify_expired {tok code : String} {now : Nat} {st : AuthState}
    {p : Pending} (h : findPending tok st.pending = some p)
    (he : p.issuedAt + 300 < now) :
    verifyAndComplete tok code now st = (.expired, st) := by
  unfold verifyAndComplete
  rw [h]
  dsimp only
  rw [if_pos he]

/-- C7: a pending token that has been consumed by a successful
`VerifyAndComplete` (the state is the post-state of such a call), or whose
expiry `issuedAt + 300` lies before the time of the new call, fails every
subsequent `VerifyAndComplete` presenting it — with the invalid-token or the
expired error, never a session, and without changing the state — after any
interleaving of further operations, provided the unguessable bearer value is
never minted again. -/
theorem c7_token_single_use (st : AuthState) (ops : List AOp) (tok code : String)
    (now : Nat)
    (hcons : (∃ st0 c0 n0 uid, verifyAndComplete tok c0 n0 st0 = (.session uid, st)) ∨
      (∀ p, findPending tok st.pending = some p → p.issuedAt + 300 < now))
    (hfresh : ∀ op ∈ ops, ¬ issuesTok op tok) :
    ((verifyAndComplete tok code now (applyAOps st ops)).1 = .invalidToken ∨
     (verifyAndComplete tok code now (applyAOps st ops)).1 = .expired) ∧
    (∀ uid, (verifyAndComplete tok code now (applyAOps st ops)).1 ≠ .session uid) ∧
    (verifyAndComplete tok code now (applyAOps st ops)).2 = applyAOps st ops := by
  have hbase : ∀ p, findPending tok st.pending = some p → p.issuedAt + 300 < now := by
    rcases hcons with ⟨st0, c0, n0, uid, hv⟩ | h
    · intro p hp
      rw [verify_consumes hv] at hp
      exact absurd hp (by simp)
    · exact h
  have key : verifyAndComplete tok code now (applyAOps st ops) =
      (.invalidToken, applyAOps st ops) ∨
      verifyAndComplete tok code now (applyAOps st ops) =
      (.expired, applyAOps st ops) := by
    rcases seq_preserve ops st hfresh with h1 | h1
    · cases hf : findPending tok st.pending with
      | none => left; exact verify_absent (h1.trans hf)
      | some p => right; exact verify_expired (h1.trans hf) (hbase p hf)
    · left; exact verify_absent h1
  rcases key with h | h <;> rw [h]
  · exact ⟨Or.inl rfl, fun uid huid => VerifyResult.noConfusion huid, rfl⟩
  · exact ⟨Or.inr rfl, fun uid huid => VerifyResult.noConfusion huid, rfl⟩

theorem c7_token_single_use_witness :
    ((verifyAndComplete "t1" "123456" 1000
        (applyAOps ⟨[⟨"t1", "u1", 0⟩], []⟩ [])).1 = .invalidToken ∨
     (verifyAndComplete "t1" "123456" 1000
        (applyAOps ⟨[⟨"t1", "u1", 0⟩], []⟩ [])).1 = .expired) ∧
    (∀ uid, (verifyAndComplete "t1" "123456" 1000
        (applyAOps ⟨[⟨"t1", "u1", 0⟩], []⟩ [])).1 ≠ .session uid) ∧
    (verifyAndComplete "t1" "123456" 1000
        (applyAOps ⟨[⟨"t1", "u1", 0⟩], []⟩ [])).2 =
      applyAOps ⟨[⟨"t1", "u1", 0⟩], []⟩ [] :=
  c7_token_single_use ⟨[⟨"t1", "u1", 0⟩], []⟩ [] "t1" "123456" 1000
    (Or.inr fun p hp => by
      have hp2 : p = ⟨"t1", "u1", 0⟩ := by
        have he : findPending "t1" [(⟨"t1", "u1", 0⟩ : Pending)] =
            some ⟨"t1", "u1", 0⟩ := by decide
        exact (Option.some.inj (he.symm.trans hp)).symm
      rw [hp2]
      decide)
    (fun op hop => absurd hop (List.not_mem_nil op))

/-! ## QR round-trip lemmas (C8) -/

theorem b32chr_pred (P : Char → Bool)
    (h32 : ∀ k, k < 32 →
      P ("ABCDEFGHIJKLMNOPQRSTUVWXYZ234567".data.getD k 'A') = true)
    (v : Nat) : P (b32chr v) = true := by
  unfold b32chr
  exact h32 (v % 32) (Nat.mod_lt _ (by norm_num))

theorem b32enc_pred (P : Char → Bool)
    (h32 : ∀ k, k < 32 →
      P ("ABCDEFGHIJKLMNOPQRSTUVWXYZ234567".data.getD k 'A') = true) :
    ∀ (bytes : List Nat) (c : Char), c ∈ b32enc bytes → P c = true
  | [], _, h => absurd h (List.not_mem_nil _)
  | [b0], c, h => by
    simp only [b32enc, List.mem_cons, List.not_mem_nil, or_false] at h
    rcases h with rfl | rfl <;> exact b32chr_pred P h32 _
  | [b0, b1], c, h => by
    simp only [b32enc, List.mem_cons, List.not_mem_nil, or_false] at h
    rcases h with rfl | rfl | rfl | rfl <;> exact b32chr_pred P h32 _
  | [b0, b1, b2], c, h => by
    simp only [b32enc, List.mem_cons, List.not_mem_nil, or_false] at h
    rcases h with rfl | rfl | rfl | rfl | rfl <;> exact b32chr_pred P h32 _
  | [b0, b1, b2, b3], c, h => by
    simp only [b32enc, List.mem_cons, List.not_mem_nil, or_false] at h
    rcases h with rfl | rfl | rfl | rfl | rfl | rfl | rfl <;> exact b32chr_pred P h32 _
  | b0 :: b1 :: b2 :: b3 :: b4 :: rest, c, h => by
    simp only [b32enc, List.cons_append, List.nil_append, List.mem_cons] at h
    rcases h with rfl | rfl | rfl | rfl | rfl | rfl | rfl | rfl | hm
    · exact b32chr_pred P h32 _
    · exact b32chr_pred P h32 _
    · exact b32chr_pred P h32 _
    · exact b32chr_pred P h32 _
    · exact b32chr_pred P h32 _
    · exact b32chr_pred P h32 _
    · exact b32chr_pred P h32 _
    · exact b32chr_pred P h32 _
    · exact b32enc_pred P h32 rest c hm

theorem queryEsc_alnum {l : List Char} (h : ∀ c ∈ l, isAlphaNum c = true) :
    queryEsc l = l := by
  induction l with
  | nil => rfl
  | cons c cs ih =>
    have hc : isAlphaNum c = true := h c (List.mem_cons_self _ _)
    have hrest := ih fun x hx => h x (List.mem_cons_of_mem _ hx)
    unfold queryEsc at hrest ⊢
    rw [List.flatMap_cons, if_pos (by simp [hc]), hrest]
    rfl

/-- The concrete part of the provisioning URL for the label `alice`:
everything before the secret parameter value. -/
def aliceURLPre : List Char :=
  "otpauth://totp/Navidrome:alice?algorithm=SHA1&digits=6&issuer=Navidrome&period=30&secret=".data

/-- The concrete part of the query string for the label `alice`. -/
def aliceQueryPre : List Char :=
  "algorithm=SHA1&digits=6&issuer=Navidrome&period=30&secret=".data

theorem aliceURL_query (t : List Char) :
    urlQuery (aliceURLPre ++ t) = aliceQueryPre ++ t := rfl

theorem aliceQuery_issuer (t : List Char) :
    queryGet "issuer".data (aliceQueryPre ++ t) = "Navidrome".data := rfl

theorem aliceURL_path (t : List Char) :
    urlPath (aliceURLPre ++ t) = "/Navidrome:alice".data := rfl

theorem generateQRCode_ok {l : List Char} (ht : trimSpace l = l)
    (hc : hasCtl l = false) :
    generateQRCode (String.mk l) =
      .ok (String.mk ("data:image/png;base64,".data ++ b64enc (qrPngBytes l))) := by
  unfold generateQRCode
  rw [show (String.mk l).data = l from rfl, ht, hc]
  rfl

theorem keyIssuer_alice (tail : List Char)
    (ht : trimSpace (aliceURLPre ++ tail) = aliceURLPre ++ tail) :
    keyIssuer (String.mk (aliceURLPre ++ tail)) = "Navidrome" := by
  unfold keyIssuer
  rw [show (String.mk (aliceURLPre ++ tail)).data = aliceURLPre ++ tail from rfl,
    ht, aliceURL_query, aliceQuery_issuer]
  rfl

theorem keyAccountName_alice (tail : List Char)
    (ht : trimSpace (aliceURLPre ++ tail) = aliceURLPre ++ tail) :
    keyAccountName (String.mk (aliceURLPre ++ tail)) = "alice" := by
  unfold keyAccountName
  rw [show (String.mk (aliceURLPre ++ tail)).data = aliceURLPre ++ tail from rfl,
    ht, aliceURL_path]
  rfl

/-- C8: for every entropy input (in the source, 20 random bytes),
`GenerateSecret` for the label `alice` succeeds with a provisioning URL from
which `GenerateQRCode` succeeds and yields a data URI carrying the
`data:image/png;base64,` prefix, and re-parsing the provisioning URL (as
`otp.NewKeyFromURL` does) recovers the issuer `Navidrome` and the account
label `alice`. -/
theorem c8_qr_roundtrip (bytes : List Nat) :
    ∃ secret url dataUri,
      generateSecret "alice" bytes = .ok (secret, url) ∧
      generateQRCode url = .ok dataUri ∧
      (∃ rest, dataUri.data = "data:image/png;base64,".data ++ rest) ∧
      keyIssuer url = "Navidrome" ∧ keyAccountName url = "alice" := by
  have halnum : ∀ c ∈ b32enc bytes, isAlphaNum c = true :=
    b32enc_pred isAlphaNum (by decide) bytes
  have hnosp : ∀ c ∈ b32enc bytes, isSp c = false := fun c hc => by
    have := b32enc_pred (fun c => !isSp c) (by decide) bytes c hc
    simpa using this
  have hnoctl : ∀ c ∈ b32enc bytes,
      (decide (c.toNat < 32) || decide (c.toNat = 127)) = false := fun c hc => by
    have := b32enc_pred
      (fun c => !(decide (c.toNat < 32) || decide (c.toNat = 127))) (by decide) bytes c hc
    simpa using this
  have hurl : provisioningURL "alice".data (b32enc bytes) =
      aliceURLPre ++ b32enc bytes := by
    unfold provisioningURL
    rw [queryEsc_alnum halnum]
    rfl
  have hpre : ∀ c ∈ aliceURLPre, isSp c = false := by decide
  have hnosp2 : ∀ c ∈ aliceURLPre ++ b32enc bytes, isSp c = false := fun c hc => by
    rcases List.mem_append.mp hc with hc | hc
    · exact hpre c hc
    · exact hnosp c hc
  have htrim : trimSpace (aliceURLPre ++ b32enc bytes) = aliceURLPre ++ b32enc bytes :=
    trim_of_nosp hnosp2
  have hctl : hasCtl (aliceURLPre ++ b32enc bytes) = false := by
    unfold hasCtl
    rw [List.any_append]
    have h1 : aliceURLPre.any (fun c => decide (c.toNat < 32) || decide (c.toNat = 127)) =
        false := by decide
    have h2 : (b32enc bytes).any (fun c => decide (c.toNat < 32) || decide (c.toNat = 127)) =
        false := List.any_eq_false.mpr fun c hc => by
      rw [hnoctl c hc]
      exact Bool.false_ne_true
    rw [h1, h2]
    rfl
  refine ⟨String.mk (b32enc bytes), String.mk (aliceURLPre ++ b32enc bytes),
    String.mk ("data:image/png;base64,".data ++
      b64enc (qrPngBytes (aliceURLPre ++ b32enc bytes))), ?_, ?_, ?_, ?_, ?_⟩
  · have hgen : generateSecret "alice" bytes =
        .ok (String.mk (b32enc bytes),
          String.mk (provisioningURL "alice".data (b32enc bytes))) := rfl
    rw [hgen, hurl]
  · exact generateQRCode_ok htrim hctl
  · exact ⟨b64enc (qrPngBytes (aliceURLPre ++ b32enc bytes)), rfl⟩
  · exact keyIssuer_alice (b32enc bytes) htrim
  · exact keyAccountName_alice (b32enc bytes) htrim


end NavidromeTOTP

